import Mathlib

/-!
Shallow embedding of the media_tools repository (src/src/lib.rs, with its
CLI caller src/src/bin/video.rs) and verification of the frozen claims.

The library exposes two routines:
  read_dir(path, ext) : scans a directory, keeps regular files whose
    extension matches ext ASCII-case-insensitively, and returns the full
    path strings sorted ascending;
  concat(path, ext)   : creates {path}/file_list.txt, writes one manifest
    line per scanned file, then spawns ffmpeg with fixed arguments and
    returns Ok(status.success()).

Filesystem and subprocess effects are modelled explicitly: a folder is
either absent, existing-but-unopenable, or a list of directory entries
(an entry that fails to be read individually is `none` and is skipped,
mirroring entry.ok()).  A panic (the unwrap on Path::to_str) is modelled
as `none` at the Option layer of the result type.  Writes to an already
created manifest file are modelled as always succeeding; creation of the
manifest succeeds exactly when the folder exists.
-/

namespace MediaTools

/-- The error enumeration from src/src/lib.rs. -/
inductive Error
  | FolderNotFound
  | AccessDenied
  | FileNotFound
  | CreateOutputError
  | WriteFileError
  | CommandError
  deriving DecidableEq, Repr

/-- One directory entry as seen by std::fs::read_dir.  `name` is the file
name within the directory; `isFile` is path.is_file(); `validUtf8` records
whether path.to_str() succeeds (the name shown in `name` is the decoded
form used for extension matching, which in the panicking scenario is an
ASCII suffix and therefore representable); `content` is the file content,
carried only to show which observations ignore it. -/
structure DirEntry where
  name : String
  isFile : Bool
  validUtf8 : Bool
  content : String
  deriving DecidableEq, Repr

/-- The state of the scanned directory: absent, existing but not openable
for listing, or openable with a list of entries (`none` entries are the
ones whose individual read errors, skipped by entry.ok()). -/
inductive Folder
  | absent
  | unreadable
  | readable (entries : List (Option DirEntry))
  deriving DecidableEq, Repr

/-- ASCII lowercasing of a single character, as u8::to_ascii_lowercase. -/
def asciiLower (c : Char) : Char :=
  if 'A' ≤ c ∧ c ≤ 'Z' then Char.ofNat (c.toNat + 32) else c

/-- OsStr::eq_ignore_ascii_case on decoded strings. -/
def eqIgnoreAsciiCase (a b : String) : Bool :=
  a.data.map asciiLower == b.data.map asciiLower

/-- The characters after the last dot of a character list, `none` if the
list has no dot. -/
def afterLastDot : List Char → Option (List Char)
  | [] => none
  | c :: rest =>
    match afterLastDot rest with
    | some e => some e
    | none => if c == '.' then some rest else none

/-- Path::extension on a file name: the part after the last dot, where a
dot at index 0 (hidden files such as .gitignore) yields no extension. -/
def extension (nm : String) : Option String :=
  match nm.data with
  | [] => none
  | _ :: rest =>
    match afterLastDot rest with
    | some e => some (String.mk e)
    | none => none

/-- The filter of read_dir: path.is_file() and extension matching ext
ASCII-case-insensitively (is_some_and over Path::extension). -/
def keepEntry (ext : String) (e : DirEntry) : Bool :=
  e.isFile && (extension e.name).any (fun x => eqIgnoreAsciiCase x ext)

/-- e.path().to_str(): the full path string when the entry decodes as
UTF-8, `none` (triggering the unwrap panic) otherwise. -/
def entryPathStr (path : String) (e : DirEntry) : Option String :=
  if e.validUtf8 then some (path ++ "/" ++ e.name) else none

/-- The filter_map body of read_dir: walk the entries in order, skip
`none` entries (entry.ok() failed) and entries failing the filter, and
collect path.to_str().unwrap() for the kept ones.  A `none` result models
the panic of the unwrap on a kept non-UTF-8 entry. -/
def collectPaths (path ext : String) : List (Option DirEntry) → Option (List String)
  | [] => some []
  | none :: rest => collectPaths path ext rest
  | some e :: rest =>
    if keepEntry ext e then
      match entryPathStr path e with
      | none => none
      | some s => (collectPaths path ext rest).map (fun ps => s :: ps)
    else collectPaths path ext rest

/-- Byte-lexicographic comparison of character lists (UTF-8 byte order
coincides with code point order, so comparing decoded characters agrees
with Rust's byte-wise Ord on String). -/
def charListLe : List Char → List Char → Bool
  | [], _ => true
  | _ :: _, [] => false
  | a :: as, b :: bs => if a < b then true else if b < a then false else charListLe as bs

/-- Rust String Ord: ascending byte-lexicographic order. -/
def strLe (a b : String) : Bool :=
  charListLe a.data b.data

/-- The ordering relation used for sorting, as a proposition. -/
def strLeP (a b : String) : Prop :=
  strLe a b = true

instance : DecidableRel strLeP :=
  fun a b => inferInstanceAs (Decidable (strLe a b = true))

/-- paths.sort_unstable(): sorting ascending by the path string. -/
def sortPaths (l : List String) : List String :=
  l.insertionSort strLeP

/-- read_dir from src/src/lib.rs: existence check, opening the listing,
filtering, collecting and sorting. -/
def read_dir (fs : Folder) (path ext : String) : Option (Except Error (List String)) :=
  match fs with
  | .absent => some (.error .FolderNotFound)
  | .unreadable => some (.error .AccessDenied)
  | .readable entries =>
    (collectPaths path ext entries).map (fun ps => .ok (sortPaths ps))

/-- The single-quote character, written by the manifest line format. -/
def quoteC : Char :=
  Char.ofNat 39

/-- One manifest line: writeln!(f, "file {}", file) with the file path
wrapped in single quotes and no escaping. -/
def fileLine (s : String) : String :=
  "file " ++ String.singleton quoteC ++ s ++ String.singleton quoteC ++ "\n"

/-- The manifest content: the loop writing one line per scanned file, in
order. -/
def manifestContent : List String → String
  | [] => ""
  | f :: rest => fileLine f ++ manifestContent rest

/-- Whether a directory entry is not the file of the given name (the
entries untouched when that file is created). -/
def keepOther (nm : String) (o : Option DirEntry) : Bool :=
  match o with
  | none => true
  | some e => !(e.name == nm)

/-- File::create inside an existing directory: any previous entry of that
name is replaced by a fresh regular file with the given content. -/
def putFile (es : List (Option DirEntry)) (nm cont : String) : List (Option DirEntry) :=
  es.filter (keepOther nm) ++ [some ⟨nm, true, true, cont⟩]

/-- The scan-plus-manifest step of concat: create (truncate) file_list.txt
in the scanned directory, then run read_dir on it, then write the manifest
lines.  Returns the manifest content and the resulting folder state.
File creation fails (CreateOutputError) exactly when the folder is absent;
an unopenable folder then fails at the scan with AccessDenied. -/
def scanStep (fs : Folder) (path ext : String) : Option (Except Error (String × Folder)) :=
  match fs with
  | .absent => some (.error .CreateOutputError)
  | .unreadable => some (.error .AccessDenied)
  | .readable es =>
    match read_dir (.readable (putFile es "file_list.txt" "")) path ext with
    | none => none
    | some (.error e) => some (.error e)
    | some (.ok files) =>
      some (.ok (manifestContent files,
        .readable (putFile es "file_list.txt" (manifestContent files))))

/-- Outcome of Command::status(): spawn failure, or an exit code. -/
inductive Spawn
  | failure
  | exit (code : Nat)
  deriving DecidableEq, Repr

/-- The fixed ffmpeg argument list of concat: concat demuxer, -safe 0,
the manifest as input, stream copy, and {path}/output.mp4 as output. -/
def ffmpegArgs (path : String) : List String :=
  ["-f", "concat", "-safe", "0", "-i", path ++ "/file_list.txt", "-c", "copy",
    path ++ "/output.mp4"]

/-- concat from src/src/lib.rs: manifest creation and writing, then the
ffmpeg subprocess; `run` is the environment answering the spawn.  The
result is Ok(status.success()), CommandError if the spawn fails, and the
`none` layer again models a panic propagated from read_dir. -/
def concat (fs : Folder) (run : List String → Spawn) (path ext : String) :
    Option (Except Error Bool) :=
  match scanStep fs path ext with
  | none => none
  | some (.error e) => some (.error e)
  | some (.ok _) =>
    match run (ffmpegArgs path) with
    | .failure => some (.error .CommandError)
    | .exit c => some (.ok (c == 0))

/-- The entries that the filter of read_dir retains: the individually
readable entries that pass keepEntry, in directory order. -/
def keptNames (es : List (Option DirEntry)) (ext : String) : List DirEntry :=
  (es.filterMap id).filter (keepEntry ext)

/-- Whether every retained entry decodes as UTF-8, i.e. whether the unwrap
on Path::to_str is reached only on convertible paths. -/
def allRetainedValid (es : List (Option DirEntry)) (ext : String) : Bool :=
  (keptNames es ext).all (fun e => e.validUtf8)

/-- Case-sensitive starts-with test on character lists. -/
def charListBegins : List Char → List Char → Bool
  | [], _ => true
  | _ :: _, [] => false
  | a :: as, b :: bs => a == b && charListBegins as bs

/-- str::starts_with: does `s` begin with `pat`, case-sensitively. -/
def beginsWith (pat s : String) : Bool :=
  charListBegins pat.data s.data

/-- The list produced by the scan inside concat (after file_list.txt has
been created in the directory), empty in the error and panic cases. -/
def scanListOf (es : List (Option DirEntry)) (path ext : String) : List String :=
  match read_dir (.readable (putFile es "file_list.txt" "")) path ext with
  | some (.ok files) => files
  | _ => []

/-- Whether a concat outcome is the FolderNotFound error. -/
def isFolderNotFoundR (r : Option (Except Error Bool)) : Bool :=
  match r with
  | some (.error .FolderNotFound) => true
  | _ => false

/-- The directory of the testable-properties scenario of the spec:
a.mp4, b.MP4, c.txt and nota.mp4, all regular files. -/
def c5Entries : List (Option DirEntry) :=
  [some ⟨"a.mp4", true, true, ""⟩, some ⟨"b.MP4", true, true, ""⟩,
    some ⟨"c.txt", true, true, ""⟩, some ⟨"nota.mp4", true, true, ""⟩]

/-! ## Helper lemmas -/

theorem charListLe_total (as : List Char) : ∀ bs, charListLe as bs = true ∨ charListLe bs as = true := by
  induction as with
  | nil => intro bs; left; rfl
  | cons a as ih =>
    intro bs
    cases bs with
    | nil => right; rfl
    | cons b bs =>
      rcases lt_trichotomy a b with h | h | h
      · left; simp [charListLe, h]
      · subst h
        rcases ih bs with h2 | h2
        · left; simp [charListLe, lt_irrefl, h2]
        · right; simp [charListLe, lt_irrefl, h2]
      · right; simp [charListLe, h]

theorem charListLe_trans (as : List Char) :
    ∀ bs cs, charListLe as bs = true → charListLe bs cs = true → charListLe as cs = true := by
  induction as with
  | nil => intro bs cs _ _; rfl
  | cons a as ih =>
    intro bs cs h1 h2
    cases bs with
    | nil => simp [charListLe] at h1
    | cons b bs =>
      cases cs with
      | nil => simp [charListLe] at h2
      | cons c cs =>
        rcases lt_trichotomy a b with hab | hab | hab
        · rcases lt_trichotomy b c with hbc | hbc | hbc
          · simp [charListLe, lt_trans hab hbc]
          · subst hbc; simp [charListLe, hab]
          · simp [charListLe, hbc, lt_asymm hbc] at h2
        · subst hab
          simp only [charListLe, lt_irrefl, if_false] at h1
          rcases lt_trichotomy a c with hac | hac | hac
          · simp [charListLe, hac]
          · subst hac
            simp only [charListLe, lt_irrefl, if_false] at h2 ⊢
            exact ih bs cs h1 h2
          · simp [charListLe, hac, lt_asymm hac] at h2
        · simp [charListLe, hab, lt_asymm hab] at h1

instance : IsTotal String strLeP :=
  ⟨fun a b => charListLe_total a.data b.data⟩

instance : IsTrans String strLeP :=
  ⟨fun a b c h1 h2 => charListLe_trans a.data b.data c.data h1 h2⟩

theorem sortPaths_sorted (l : List String) : List.Sorted strLeP (sortPaths l) :=
  List.sorted_insertionSort strLeP l

theorem sortPaths_mem {s : String} {l : List String} : s ∈ sortPaths l ↔ s ∈ l :=
  List.mem_insertionSort strLeP

theorem keptNames_none (rest : List (Option DirEntry)) (ext : String) :
    keptNames (none :: rest) ext = keptNames rest ext := rfl

theorem keptNames_some (e : DirEntry) (rest : List (Option DirEntry)) (ext : String) :
    keptNames (some e :: rest) ext
      = if keepEntry ext e = true then e :: keptNames rest ext else keptNames rest ext := by
  simp [keptNames, List.filterMap_cons, List.filter_cons]

theorem mem_keptNames {e : DirEntry} {es : List (Option DirEntry)} {ext : String} :
    e ∈ keptNames es ext ↔ some e ∈ es ∧ keepEntry ext e = true := by
  simp [keptNames, List.mem_filter, List.mem_filterMap]

theorem collectPaths_eq_some (path ext : String) (es : List (Option DirEntry))
    (h : allRetainedValid es ext = true) :
    collectPaths path ext es
      = some ((keptNames es ext).map (fun e => path ++ "/" ++ e.name)) := by
  induction es with
  | nil => rfl
  | cons o rest ih =>
    cases o with
    | none => exact ih h
    | some e =>
      by_cases hk : keepEntry ext e = true
      · have hsplit : e.validUtf8 = true ∧ allRetainedValid rest ext = true := by
          have h2 := h
          rw [allRetainedValid, keptNames_some, if_pos hk] at h2
          simpa [List.all_cons, Bool.and_eq_true, allRetainedValid] using h2
        obtain ⟨hv, hrest⟩ := hsplit
        simp only [collectPaths]
        rw [if_pos hk]
        simp only [entryPathStr, hv, if_true]
        rw [ih hrest]
        rw [keptNames_some, if_pos hk]
        rfl
      · have hrest : allRetainedValid rest ext = true := by
          have h2 := h
          rw [allRetainedValid, keptNames_some, if_neg hk] at h2
          exact h2
        simp only [collectPaths]
        rw [if_neg hk, ih hrest, keptNames_some, if_neg hk]

theorem collectPaths_eq_none (path ext : String) (es : List (Option DirEntry))
    (h : allRetainedValid es ext = false) :
    collectPaths path ext es = none := by
  induction es with
  | nil => simp [allRetainedValid, keptNames] at h
  | cons o rest ih =>
    cases o with
    | none => exact ih h
    | some e =>
      by_cases hk : keepEntry ext e = true
      · rw [allRetainedValid, keptNames_some, if_pos hk] at h
        simp only [List.all_cons, Bool.and_eq_false_iff] at h
        cases hv : e.validUtf8 with
        | false =>
          simp only [collectPaths]
          rw [if_pos hk]
          simp [entryPathStr, hv]
        | true =>
          have hrest : allRetainedValid rest ext = false := by
            rcases h with h | h
            · rw [hv] at h; cases h
            · exact h
          simp only [collectPaths]
          rw [if_pos hk]
          simp only [entryPathStr, hv, if_true]
          rw [ih hrest]
          rfl
      · rw [allRetainedValid, keptNames_some, if_neg hk] at h
        simp only [collectPaths]
        rw [if_neg hk]
        exact ih h

theorem read_dir_eq_some (path ext : String) (es : List (Option DirEntry))
    (h : allRetainedValid es ext = true) :
    read_dir (.readable es) path ext
      = some (.ok (sortPaths ((keptNames es ext).map (fun e => path ++ "/" ++ e.name)))) := by
  simp only [read_dir]
  rw [collectPaths_eq_some path ext es h]
  rfl

theorem read_dir_eq_none (path ext : String) (es : List (Option DirEntry))
    (h : allRetainedValid es ext = false) :
    read_dir (.readable es) path ext = none := by
  simp only [read_dir]
  rw [collectPaths_eq_none path ext es h]
  rfl

theorem allRetainedValid_eq_false {es : List (Option DirEntry)} {ext : String} {e : DirEntry}
    (he : some e ∈ es) (hk : keepEntry ext e = true) (hv : e.validUtf8 = false) :
    allRetainedValid es ext = false := by
  cases hall : allRetainedValid es ext with
  | false => rfl
  | true =>
    rw [allRetainedValid, List.all_eq_true] at hall
    have h2 := hall e (mem_keptNames.mpr ⟨he, hk⟩)
    rw [hv] at h2
    cases h2

theorem read_dir_readable_not_error (es : List (Option DirEntry)) (path ext : String)
    (e : Error) (h : read_dir (.readable es) path ext = some (.error e)) : False := by
  simp only [read_dir] at h
  cases hc : collectPaths path ext es with
  | none => rw [hc] at h; cases h
  | some ps => rw [hc] at h; simp at h

theorem scanStep_error_cases (fs : Folder) (path ext : String) (e : Error)
    (h : scanStep fs path ext = some (.error e)) :
    e = .CreateOutputError ∨ e = .AccessDenied := by
  cases fs with
  | absent =>
    simp only [scanStep, Option.some.injEq, Except.error.injEq] at h
    exact Or.inl h.symm
  | unreadable =>
    simp only [scanStep, Option.some.injEq, Except.error.injEq] at h
    exact Or.inr h.symm
  | readable es =>
    simp only [scanStep] at h
    cases hrd : read_dir (.readable (putFile es "file_list.txt" "")) path ext with
    | none => rw [hrd] at h; cases h
    | some r =>
      rw [hrd] at h
      cases r with
      | error e2 => exact absurd hrd (fun hh => read_dir_readable_not_error _ _ _ _ hh)
      | ok files => simp at h

theorem manifestContent_append (xs ys : List String) :
    manifestContent (xs ++ ys) = manifestContent xs ++ manifestContent ys := by
  induction xs with
  | nil =>
    simp only [List.nil_append, manifestContent]
    exact (String.empty_append _).symm
  | cons f rest ih =>
    simp only [List.cons_append, manifestContent, String.append_assoc, List.append_eq]
    rw [ih]

theorem manifest_mem_line {f : String} {files : List String} (h : f ∈ files) :
    ∃ pre post, manifestContent files = pre ++ fileLine f ++ post := by
  induction files with
  | nil => cases h
  | cons g rest ih =>
    rcases List.mem_cons.mp h with h1 | h1
    · subst h1
      refine ⟨"", manifestContent rest, ?_⟩
      rw [String.empty_append]
      rfl
    · obtain ⟨pre, post, hp⟩ := ih h1
      refine ⟨fileLine g ++ pre, post, ?_⟩
      simp only [manifestContent, hp, String.append_assoc]

theorem putFile_putFile (es : List (Option DirEntry)) (nm c1 c2 : String) :
    putFile (putFile es nm c1) nm c2 = putFile es nm c2 := by
  unfold putFile
  rw [List.filter_append]
  have h1 : List.filter (keepOther nm) [some (⟨nm, true, true, c1⟩ : DirEntry)] = [] := by
    simp [keepOther]
  rw [h1, List.append_nil]
  rw [List.filter_eq_self.mpr (fun a ha => List.of_mem_filter ha)]

/-! ## Claims -/

/-- C1: the spec states the scanner retains only regular files whose name
starts, case-sensitively, with the given prefix.  read_dir in
src/src/lib.rs takes no prefix argument and applies no starts-with test:
a directory whose only file is b.mp4, scanned for extension mp4, yields
that file even though its name does not begin with the prefix a that the
caller (src/src/bin/video.rs) would pass. -/
theorem c1_scan_has_no_name_filter :
    read_dir (.readable [some ⟨"b.mp4", true, true, ""⟩]) "d" "mp4"
      = some (.ok ["d/b.mp4"]) ∧
    beginsWith "a" "b.mp4" = false ∧ beginsWith "a" "d/b.mp4" = false :=
  ⟨rfl, rfl, rfl⟩

/-- C2: the spec states concat passes a caller-supplied output path to the
external tool.  concat in src/src/lib.rs takes no output argument: the
flag list is fixed as concat demuxer, -safe 0, the manifest as -i, -c
copy, and the derived path folder/output.mp4 as the output argument; the
subprocess is consulted exactly at that argument list. -/
theorem c2_ffmpeg_output_is_derived :
    ffmpegArgs "/tmp/vid" = ["-f", "concat", "-safe", "0", "-i",
      "/tmp/vid/file_list.txt", "-c", "copy", "/tmp/vid/output.mp4"] ∧
    concat (.readable [])
      (fun args => if args == ffmpegArgs "/tmp/vid" then Spawn.exit 0 else Spawn.failure)
      "/tmp/vid" "mp4" = some (.ok true) :=
  ⟨rfl, rfl⟩

/-- C3: once the manifest step has succeeded, concat returns Ok true on a
zero exit code, Ok false on any other exit code, both as successful
returns, and returns the CommandError error exactly when the subprocess
cannot be spawned. -/
theorem c3_spawn_result :
    (∀ fs run path ext m fs2, scanStep fs path ext = some (.ok (m, fs2)) →
      (∀ c, run (ffmpegArgs path) = Spawn.exit c →
        concat fs run path ext = some (.ok (c == 0))) ∧
      (run (ffmpegArgs path) = Spawn.failure →
        concat fs run path ext = some (.error .CommandError))) ∧
    (∀ fs run path ext, concat fs run path ext = some (.error .CommandError) →
      run (ffmpegArgs path) = Spawn.failure) := by
  constructor
  · intro fs run path ext m fs2 h
    constructor
    · intro c hc
      simp only [concat, h, hc]
    · intro hc
      simp only [concat, h, hc]
  · intro fs run path ext h
    simp only [concat] at h
    cases hs : scanStep fs path ext with
    | none => rw [hs] at h; cases h
    | some r =>
      rw [hs] at h
      cases r with
      | error e =>
        rcases scanStep_error_cases fs path ext e hs with h1 | h1 <;>
          (subst h1; simp at h)
      | ok pr =>
        cases hr : run (ffmpegArgs path) with
        | failure => rfl
        | exit c => rw [hr] at h; simp at h

/-- Witness for C3 at a concrete folder, runner and exit code. -/
theorem c3_spawn_result_witness :
    concat (.readable []) (fun _ => Spawn.exit 0) "d" "mp4" = some (.ok true) ∧
    concat (.readable []) (fun _ => Spawn.failure) "d" "mp4"
      = some (.error .CommandError) := by
  have h1 := (c3_spawn_result.1 (.readable []) (fun _ => Spawn.exit 0) "d" "mp4"
    (manifestContent []) (.readable (putFile [] "file_list.txt" (manifestContent []))) rfl).1 0 rfl
  have h2 := (c3_spawn_result.1 (.readable []) (fun _ => Spawn.failure) "d" "mp4"
    (manifestContent []) (.readable (putFile [] "file_list.txt" (manifestContent []))) rfl).2 rfl
  exact ⟨h1, h2⟩

/-- C4: the manifest is a strict function of the ordered file list: the
writing loop is an append homomorphism, each line is the token file, one
space, the path wrapped in single quotes with no escaping, then a
newline, and the two-element instance produces exactly the two expected
lines. -/
theorem c4_manifest_format :
    (∀ xs ys, manifestContent (xs ++ ys) = manifestContent xs ++ manifestContent ys) ∧
    (∀ f, (fileLine f).data
      = "file ".data ++ [quoteC] ++ f.data ++ [quoteC, Char.ofNat 10]) ∧
    manifestContent ["x", "y"]
      = "file " ++ String.singleton quoteC ++ "x" ++ String.singleton quoteC ++ "\n"
        ++ ("file " ++ String.singleton quoteC ++ "y" ++ String.singleton quoteC ++ "\n") := by
  refine ⟨manifestContent_append, ?_, rfl⟩
  intro f
  simp [fileLine, String.data_append, String.singleton, List.append_assoc]

/-- C5 counterexample: on the directory a.mp4, b.MP4, c.txt, nota.mp4
scanned for extension mp4, the scanner returns three files, not the two
that the claim lists: nota.mp4 has extension mp4 and matches too. -/
theorem c5_scan_example_counterexample :
    read_dir (.readable c5Entries) "d" "mp4"
      = some (.ok ["d/a.mp4", "d/b.MP4", "d/nota.mp4"]) ∧
    (["d/a.mp4", "d/b.MP4", "d/nota.mp4"] == ["d/a.mp4", "d/b.MP4"]) = false :=
  ⟨rfl, rfl⟩

/-- C5 (amended): the extension filter is an ASCII-case-insensitive exact
match on the extension component, the result is sorted ascending in
byte-lexicographic path order and contains exactly the matching entries,
and on the example directory the result is a.mp4, b.MP4 and nota.mp4. -/
theorem c5_scan_characterization :
    (∀ es path ext l, read_dir (.readable es) path ext = some (.ok l) →
      List.Sorted strLeP l ∧
      (∀ s, s ∈ l ↔ ∃ e, some e ∈ es ∧ keepEntry ext e = true ∧ s = path ++ "/" ++ e.name)) ∧
    (∀ e x y, eqIgnoreAsciiCase x y = true → keepEntry x e = keepEntry y e) ∧
    read_dir (.readable c5Entries) "d" "mp4"
      = some (.ok ["d/a.mp4", "d/b.MP4", "d/nota.mp4"]) := by
  refine ⟨?_, ?_, rfl⟩
  · intro es path ext l h
    cases hall : allRetainedValid es ext with
    | false => rw [read_dir_eq_none path ext es hall] at h; cases h
    | true =>
      rw [read_dir_eq_some path ext es hall] at h
      simp only [Option.some.injEq, Except.ok.injEq] at h
      subst h
      refine ⟨sortPaths_sorted _, ?_⟩
      intro s
      rw [sortPaths_mem, List.mem_map]
      constructor
      · rintro ⟨e, he, rfl⟩
        rcases mem_keptNames.mp he with ⟨h1, h2⟩
        exact ⟨e, h1, h2, rfl⟩
      · rintro ⟨e, h1, h2, rfl⟩
        exact ⟨e, mem_keptNames.mpr ⟨h1, h2⟩, rfl⟩
  · intro e x y h
    simp only [eqIgnoreAsciiCase] at h
    have hxy : x.data.map asciiLower = y.data.map asciiLower := eq_of_beq h
    unfold keepEntry eqIgnoreAsciiCase
    rw [hxy]

/-- Witness for C5 at the example directory. -/
theorem c5_scan_characterization_witness :
    List.Sorted strLeP ["d/a.mp4", "d/b.MP4", "d/nota.mp4"] ∧
    "d/a.mp4" ∈ ["d/a.mp4", "d/b.MP4", "d/nota.mp4"] := by
  have h := c5_scan_characterization.1 c5Entries "d" "mp4"
    ["d/a.mp4", "d/b.MP4", "d/nota.mp4"] rfl
  exact ⟨h.1, (h.2 "d/a.mp4").mpr
    ⟨⟨"a.mp4", true, true, ""⟩, by simp [c5Entries], rfl, rfl⟩⟩

/-- C6: the scanner fails with FolderNotFound exactly on an absent
directory and with AccessDenied exactly on a directory that exists but
cannot be opened for listing, and a directory with no matching entry
yields Ok with the empty list. -/
theorem c6_scan_errors :
    (∀ path ext, read_dir .absent path ext = some (.error .FolderNotFound)) ∧
    (∀ path ext, read_dir .unreadable path ext = some (.error .AccessDenied)) ∧
    (∀ fs path ext er, read_dir fs path ext = some (.error er) →
      (er = .FolderNotFound ↔ fs = .absent) ∧ (er = .AccessDenied ↔ fs = .unreadable)) ∧
    (∀ es path ext, (∀ e, some e ∈ es → keepEntry ext e = false) →
      read_dir (.readable es) path ext = some (.ok [])) := by
  refine ⟨fun _ _ => rfl, fun _ _ => rfl, ?_, ?_⟩
  · intro fs path ext er h
    cases fs with
    | absent =>
      simp only [read_dir, Option.some.injEq, Except.error.injEq] at h
      subst h
      exact ⟨iff_of_true rfl rfl, iff_of_false (by decide) (by simp)⟩
    | unreadable =>
      simp only [read_dir, Option.some.injEq, Except.error.injEq] at h
      subst h
      exact ⟨iff_of_false (by decide) (by simp), iff_of_true rfl rfl⟩
    | readable es => exact absurd h (fun hh => read_dir_readable_not_error _ _ _ _ hh)
  · intro es path ext h
    have hnil : keptNames es ext = [] := by
      rw [List.eq_nil_iff_forall_not_mem]
      intro e he
      rcases mem_keptNames.mp he with ⟨h1, h2⟩
      rw [h e h1] at h2
      cases h2
    have hall : allRetainedValid es ext = true := by
      rw [allRetainedValid, hnil]
      rfl
    rw [read_dir_eq_some path ext es hall, hnil]
    rfl

/-- Witness for C6: a directory whose only entry fails the extension
filter yields the empty list, and the FolderNotFound case characterizes
the absent folder. -/
theorem c6_scan_errors_witness :
    read_dir (.readable [some ⟨"c.txt", true, true, ""⟩]) "d" "mp4" = some (.ok []) ∧
    (Error.FolderNotFound = Error.FolderNotFound ↔ Folder.absent = Folder.absent) := by
  refine ⟨c6_scan_errors.2.2.2 [some ⟨"c.txt", true, true, ""⟩] "d" "mp4" ?_,
    (c6_scan_errors.2.2.1 .absent "d" "mp4" .FolderNotFound rfl).1⟩
  intro e he
  simp only [List.mem_singleton, Option.some.injEq] at he
  subst he
  rfl

/-- C7: the scan-plus-manifest step is idempotent: run again on the
directory state it produced (same entry names, the manifest file
rewritten), it emits a byte-identical manifest and the same state; the
scan only depends on entry names, never on file contents. -/
theorem c7_scan_manifest_idempotent (es : List (Option DirEntry)) (path ext m : String)
    (fs2 : Folder) (h : scanStep (.readable es) path ext = some (.ok (m, fs2))) :
    scanStep fs2 path ext = some (.ok (m, fs2)) := by
  simp only [scanStep] at h
  cases hrd : read_dir (.readable (putFile es "file_list.txt" "")) path ext with
  | none => rw [hrd] at h; cases h
  | some r =>
    rw [hrd] at h
    cases r with
    | error e => simp at h
    | ok files =>
      simp only [Option.some.injEq, Except.ok.injEq, Prod.mk.injEq] at h
      obtain ⟨hm, hfs⟩ := h
      subst hm
      subst hfs
      simp only [scanStep]
      rw [putFile_putFile, hrd]
      show some (Except.ok (manifestContent files,
          Folder.readable (putFile (putFile es "file_list.txt" (manifestContent files))
            "file_list.txt" (manifestContent files))))
        = some (Except.ok (manifestContent files,
          Folder.readable (putFile es "file_list.txt" (manifestContent files))))
      rw [putFile_putFile]

/-- Witness for C7 at a one-file directory. -/
theorem c7_scan_manifest_idempotent_witness :
    scanStep (.readable (putFile [some ⟨"a.mp4", true, true, ""⟩] "file_list.txt"
        (manifestContent ["d/a.mp4"]))) "d" "mp4"
      = some (.ok (manifestContent ["d/a.mp4"],
          .readable (putFile [some ⟨"a.mp4", true, true, ""⟩] "file_list.txt"
            (manifestContent ["d/a.mp4"])))) :=
  c7_scan_manifest_idempotent [some ⟨"a.mp4", true, true, ""⟩] "d" "mp4"
    (manifestContent ["d/a.mp4"])
    (.readable (putFile [some ⟨"a.mp4", true, true, ""⟩] "file_list.txt"
      (manifestContent ["d/a.mp4"]))) rfl

/-- C8: concat creates folder/file_list.txt before the scan runs, so an
absent directory fails with CreateOutputError, and no run of concat can
return FolderNotFound. -/
theorem c8_folder_not_found_unreachable :
    (∀ run path ext, concat .absent run path ext = some (.error .CreateOutputError)) ∧
    (∀ fs run path ext, isFolderNotFoundR (concat fs run path ext) = false) := by
  refine ⟨fun _ _ _ => rfl, ?_⟩
  intro fs run path ext
  cases fs with
  | absent => rfl
  | unreadable => rfl
  | readable es =>
    simp only [concat, scanStep, read_dir]
    cases hc : collectPaths path ext (putFile es "file_list.txt" "") with
    | none => rfl
    | some ps =>
      cases hr : run (ffmpegArgs path) with
      | failure => rfl
      | exit c => rfl

/-- C9: when the requested extension equals txt up to ASCII case, the
manifest file file_list.txt, created in the scanned directory before the
scan, matches the filter, is part of the scan result and its own line
appears in the manifest it stores. -/
theorem c9_manifest_lists_itself (es : List (Option DirEntry)) (path ext m : String)
    (fs2 : Folder) (hext : eqIgnoreAsciiCase "txt" ext = true)
    (h : scanStep (.readable es) path ext = some (.ok (m, fs2))) :
    (path ++ "/file_list.txt") ∈ scanListOf es path ext ∧
    m = manifestContent (scanListOf es path ext) ∧
    ∃ pre post, m = pre ++ fileLine (path ++ "/file_list.txt") ++ post := by
  have hkeep : keepEntry ext ⟨"file_list.txt", true, true, ""⟩ = true := hext
  cases hall : allRetainedValid (putFile es "file_list.txt" "") ext with
  | false =>
    simp only [scanStep] at h
    rw [read_dir_eq_none path ext _ hall] at h
    cases h
  | true =>
    have hrd := read_dir_eq_some path ext _ hall
    simp only [scanStep] at h
    rw [hrd] at h
    simp only [Option.some.injEq, Except.ok.injEq, Prod.mk.injEq] at h
    obtain ⟨hm, _⟩ := h
    have hlist : scanListOf es path ext
        = sortPaths ((keptNames (putFile es "file_list.txt" "") ext).map
            (fun e => path ++ "/" ++ e.name)) := by
      simp only [scanListOf]
      rw [hrd]
    have hmem : (path ++ "/file_list.txt") ∈ scanListOf es path ext := by
      rw [hlist, sortPaths_mem, List.mem_map]
      refine ⟨⟨"file_list.txt", true, true, ""⟩, mem_keptNames.mpr ⟨?_, hkeep⟩, ?_⟩
      · exact List.mem_append_right _ (List.mem_singleton.mpr rfl)
      · show path ++ "/" ++ "file_list.txt" = path ++ "/file_list.txt"
        rw [String.append_assoc]
        rfl
    have hm2 : m = manifestContent (scanListOf es path ext) := by
      rw [hlist]
      exact hm.symm
    obtain ⟨pre, post, hp⟩ := manifest_mem_line hmem
    exact ⟨hmem, hm2, pre, post, hm2.trans hp⟩

/-- Witness for C9 at an initially empty directory scanned for txt. -/
theorem c9_manifest_lists_itself_witness :
    "d/file_list.txt" ∈ scanListOf [] "d" "txt" ∧
    fileLine "d/file_list.txt" = manifestContent (scanListOf [] "d" "txt") := by
  have h := c9_manifest_lists_itself [] "d" "txt" (fileLine "d/file_list.txt")
    (.readable (putFile [] "file_list.txt" (fileLine "d/file_list.txt"))) rfl rfl
  exact ⟨h.1, h.2.1⟩

/-- C10: the scanner returns a value (never panics) whenever every
retained entry decodes as UTF-8, and a retained entry that does not
decode makes the unwrap panic instead of returning an error. -/
theorem c10_scan_utf8_totality :
    (∀ path ext es, allRetainedValid es ext = true →
      (read_dir (.readable es) path ext).isSome = true) ∧
    (∀ path ext es e, some e ∈ es → keepEntry ext e = true → e.validUtf8 = false →
      read_dir (.readable es) path ext = none) := by
  constructor
  · intro path ext es h
    rw [read_dir_eq_some path ext es h]
    rfl
  · intro path ext es e he hk hv
    exact read_dir_eq_none path ext es (allRetainedValid_eq_false he hk hv)

/-- Witness for C10: a valid directory scans to a value, a directory with
a retained non-UTF-8 entry panics. -/
theorem c10_scan_utf8_totality_witness :
    (read_dir (.readable [some ⟨"a.mp4", true, true, ""⟩]) "d" "mp4").isSome = true ∧
    read_dir (.readable [some ⟨"bad.mp4", true, false, ""⟩]) "d" "mp4" = none := by
  refine ⟨c10_scan_utf8_totality.1 "d" "mp4" [some ⟨"a.mp4", true, true, ""⟩] rfl,
    c10_scan_utf8_totality.2 "d" "mp4" [some ⟨"bad.mp4", true, false, ""⟩]
      ⟨"bad.mp4", true, false, ""⟩ ?_ rfl rfl⟩
  exact List.mem_singleton.mpr rfl

end MediaTools
